import Mathlib

/-!
Verification development for the `slashmetrics` terminal Prometheus metric
explorer (Go).  The Go program is shallowly embedded as follows:

* `float64` values are modeled as exact rationals (`ℚ`); the program never
  relies on float rounding in the properties below, and the Go literals
  `0.9`, `1.1`, `0.1` are modeled as the rationals `9/10`, `11/10`, `1/10`.
* `strconv.ParseFloat` is modeled by `parseFloat?`, a parser for plain
  decimal syntax (optional sign, digits with optional fraction, optional
  exponent); the `Inf`/`NaN`/hex forms play no role in the program's data.
* `time.Time` is modeled as a `Nat` tick value; `time.Now()` becomes an
  explicit `now` argument threaded into the update function.
* Go maps (`dataHistory`, `lastValues`) are modeled as total functions.
* Calls that only touch the terminal surface (style setting, axis drawing,
  legend text, `DrawAll`) carry no model state and are omitted; the chart
  widget is modeled by the state the program itself stores into it: the
  Y-range set via `SetYRange`/`SetViewYRange` and the per-dataset points
  pushed via `PushDataSet`/`ClearAllData`.
* Go whitespace handling (`strings.Fields`, `strings.TrimSpace`) is modeled
  over `Char.isWhitespace` (space, tab, CR, LF), the whitespace actually
  occurring in the exposition format.

The primary program is `main.go` (its scrape/parse/update core); the
repository also carries a stricter parser variant in `metrics.go` which
reads the second field as the value with no fallback.  Both variants are
embedded (`parseMetricLine` and `parseMetricLineStrict`).
-/

set_option maxRecDepth 16000

namespace Slashmetrics

/-- `strings.Fields`: split on runs of whitespace, dropping empty fields. -/
def fieldsAux : List Char → List Char → List (List Char)
  | [], acc => if acc.isEmpty then [] else [acc.reverse]
  | c :: rest, acc =>
    if c.isWhitespace then
      if acc.isEmpty then fieldsAux rest [] else acc.reverse :: fieldsAux rest []
    else fieldsAux rest (c :: acc)

/-- Whitespace-delimited tokens of a line (model of Go `strings.Fields`). -/
def fields (s : String) : List String :=
  (fieldsAux s.toList []).map String.mk

/-- `len(strings.TrimSpace(line)) == 0`: the line is blank after trimming. -/
def isBlank (s : String) : Bool :=
  s.toList.all Char.isWhitespace

/-- Base metric name: the part of a full series name before the first label
delimiter, or the whole name when no label block is present
(Go `strings.Index(fullName, brace)` / `strings.Cut`). -/
def baseNameOf (s : String) : String :=
  String.mk (s.toList.takeWhile (fun c => c != '{'))

/-- Whether the full name carries a label block
(Go `strings.Contains(fullName, brace)`). -/
def hasBrace (s : String) : Bool :=
  s.toList.any (fun c => c == '{')

/-- Digits of a decimal literal read into a `Nat`. -/
def digitsToNat (ds : List Char) : Nat :=
  ds.foldl (fun a c => a * 10 + (c.toNat - 48)) 0

/-- Consume an optional sign; returns (isNegative, rest). -/
def parseSign : List Char → Bool × List Char
  | '+' :: rest => (false, rest)
  | '-' :: rest => (true, rest)
  | cs => (false, cs)

/-- Consume a leading run of digits. -/
def takeDigits (cs : List Char) : List Char × List Char :=
  (cs.takeWhile Char.isDigit, cs.dropWhile Char.isDigit)

/-- Mantissa: digits with an optional fractional part; at least one digit. -/
def parseMantissa (cs : List Char) : Option (ℚ × List Char) :=
  let ip := (takeDigits cs).1
  let rest := (takeDigits cs).2
  match rest with
  | '.' :: rest2 =>
    let fp := (takeDigits rest2).1
    let rest3 := (takeDigits rest2).2
    if ip.isEmpty && fp.isEmpty then none
    else some ((digitsToNat ip : ℚ) + (digitsToNat fp : ℚ) / (10 : ℚ) ^ fp.length, rest3)
  | _ =>
    if ip.isEmpty then none
    else some ((digitsToNat ip : ℚ), rest)

/-- Model of `strconv.ParseFloat` (64-bit) on plain decimal syntax; the
parsed value is kept exact as a rational. -/
def parseFloat? (s : String) : Option ℚ :=
  let sr := parseSign s.toList
  match parseMantissa sr.2 with
  | none => none
  | some (mant, rest) =>
    match rest with
    | [] => some (if sr.1 then -mant else mant)
    | 'e' :: rest2 =>
      let er := parseSign rest2
      let ds := (takeDigits er.2).1
      let rest4 := (takeDigits er.2).2
      if ds.isEmpty || !rest4.isEmpty then none
      else
        let ex : ℚ := (10 : ℚ) ^ digitsToNat ds
        let mant2 := if er.1 then mant / ex else mant * ex
        some (if sr.1 then -mant2 else mant2)
    | 'E' :: rest2 =>
      let er := parseSign rest2
      let ds := (takeDigits er.2).1
      let rest4 := (takeDigits er.2).2
      if ds.isEmpty || !rest4.isEmpty then none
      else
        let ex : ℚ := (10 : ℚ) ^ digitsToNat ds
        let mant2 := if er.1 then mant / ex else mant * ex
        some (if sr.1 then -mant2 else mant2)
    | _ => none

/-- `parts[len(parts)-1]` (defaulting for the impossible empty case). -/
def lastTokenD (parts : List String) : String :=
  parts.reverse.headD ""

/-- `parts[len(parts)-2]` (defaulting when fewer than two tokens exist). -/
def secondLastTokenD (parts : List String) : String :=
  (parts.reverse.drop 1).headD ""

/-- The value-resolution block shared by `parseMetricLine` and the per-line
loop of `fetchAllMetricSeries` in `main.go`: parse the last field; on
failure, when at least three fields exist, fall back to the second-to-last
field. -/
def valueWithFallback (parts : List String) : Option ℚ :=
  match parseFloat? (lastTokenD parts) with
  | some v => some v
  | none =>
    if 3 ≤ parts.length then parseFloat? (secondLastTokenD parts) else none

/-- `parseMetricLine` of `main.go`: tokenize; fewer than two fields rejects;
resolve the value (last field, second-to-last fallback); the name is the
first field cut at the label delimiter.  `none` models `ok = false`. -/
def parseMetricLine (line : String) : Option (String × ℚ) :=
  let parts := fields line
  if parts.length < 2 then none
  else
    match valueWithFallback parts with
    | none => none
    | some v => some (baseNameOf (parts.headD ""), v)

/-- `parseMetricLine` of `metrics.go` (the stricter variant): the value is
always the second field, with no fallback. -/
def parseMetricLineStrict (line : String) : Option (String × ℚ) :=
  match fields line with
  | p0 :: p1 :: _ =>
    match parseFloat? p1 with
    | none => none
    | some v => some (baseNameOf p0, v)
  | _ => none

/-- `strings.HasPrefix(line, commentMarker)`: the first character of the
line is the comment marker (the Go pattern is the single byte for `#`). -/
def startsWithHash (line : String) : Bool :=
  match line.toList with
  | '#' :: _ => true
  | _ => false

/-- The caller-side skip applied before parsing each scraped line:
`strings.HasPrefix(line, commentMarker) || len(strings.TrimSpace(line)) == 0`. -/
def skipLine (line : String) : Bool :=
  startsWithHash line || isBlank line

/-- One line of the scrape loop as seen by `fetchAllMetrics`: skip blank and
comment lines, then parse. -/
def processLine (line : String) : Option (String × ℚ) :=
  if skipLine line then none else parseMetricLine line

/-- `MetricSample`: one scraped sample, full series name plus value. -/
structure MetricSample where
  FullName : String
  Value : ℚ
deriving DecidableEq

/-- The two user-visible failure kinds of the scrape client (§7 taxonomy):
transport failure / bad status versus "no sample matched the metric". -/
inductive FetchError where
  | endpointError (detail : String)
  | metricNotFound (metricName : String)
deriving DecidableEq

/-- The outcome of the HTTP GET, as the program observes it: either the
transport failed, or a status code plus the response body split in lines. -/
inductive FetchResponse where
  | transportError
  | ok (status : Nat) (body : List String)
deriving DecidableEq

/-- One iteration of the scan loop of `fetchAllMetricSeries` (`main.go`):
skip blank/comment lines; fewer than two fields skips; a base name other
than the requested metric skips; resolve the value (last field with
second-to-last fallback) or skip; finally synthesize an empty label block
when the name carried none. -/
def processSeriesLine (metricName line : String) : Option MetricSample :=
  if skipLine line then none
  else
    let parts := fields line
    if parts.length < 2 then none
    else
      let fullName := parts.headD ""
      if baseNameOf fullName ≠ metricName then none
      else
        match valueWithFallback parts with
        | none => none
        | some v =>
          some ⟨if hasBrace fullName then fullName else fullName ++ "\x7b\x7d", v⟩

/-- `fetchAllMetricSeries` (`main.go`): transport failure and non-200 status
fail with an endpoint error; otherwise the body is scanned line by line and
zero accepted samples fail with "metric not found", naming the metric. -/
def fetchAllMetricSeries (metricName : String) (resp : FetchResponse) :
    Except FetchError (List MetricSample) :=
  match resp with
  | .transportError => .error (.endpointError "failed to fetch metrics")
  | .ok status body =>
    if status ≠ 200 then
      .error (.endpointError ("unexpected status code: " ++ Nat.repr status))
    else
      let samples := body.filterMap (processSeriesLine metricName)
      if samples.isEmpty then .error (.metricNotFound metricName)
      else .ok samples

/-- `timeserieslinechart.TimePoint` with the timestamp as a tick count. -/
structure TimePoint where
  Time : Nat
  Value : ℚ
deriving DecidableEq

/-- `seriesItem`: one registry record (identity, visibility, color index). -/
structure SeriesItem where
  name : String
  checked : Bool
  colorIdx : Nat
deriving DecidableEq

/-- The chart-widget state the program stores: the Y-range set through
`SetYRange`/`SetViewYRange` and the per-dataset points pushed through
`PushDataSet` (cleared by `ClearAllData`).  Pure drawing calls are not
state. -/
structure Chart where
  yMin : ℚ
  yMax : ℚ
  datasets : String → List TimePoint

/-- A freshly constructed chart (`timeserieslinechart.New`): no datasets,
range not yet set by the program (placeholder zeros until `SetYRange`). -/
def newChart : Chart :=
  { yMin := 0, yMax := 0, datasets := fun _ => [] }

/-- `MetricsMsg`: a completed per-metric scrape delivered to `Update`. -/
structure MetricsMsg where
  samples : List MetricSample
  err : Option FetchError

/-- The state of `Model` (`main.go`) that the scrape/registry/history logic
reads or writes.  Pure render state (styles, legend viewport, terminal
sizes, the metric-picker list widget) is omitted. -/
structure Model where
  metricName : String
  err : Option FetchError
  lastUpdate : Nat
  yRangeSet : Bool
  seriesList : List SeriesItem
  dataHistory : String → List TimePoint
  lastValues : String → Option ℚ
  chart : Chart
  selectMode : Bool
  seriesSelectMode : Bool
  seriesListSelected : Nat
  seriesListScroll : Nat

/-- One step of the series-list reconciliation loop in `Update`
(`MetricsMsg` branch): an unknown identity is appended with `checked=true`
and `colorIdx` equal to the current registry length. -/
def reconcileStep (acc : List SeriesItem) (sample : MetricSample) : List SeriesItem :=
  if acc.any (fun s => s.name == sample.FullName) then acc
  else acc ++ [⟨sample.FullName, true, acc.length⟩]

/-- The full reconciliation loop over a sample batch. -/
def reconcileSeries (seriesList : List SeriesItem) (samples : List MetricSample) :
    List SeriesItem :=
  samples.foldl reconcileStep seriesList

/-- `abs` of `main.go`. -/
def goAbs (x : ℚ) : ℚ :=
  if x < 0 then -x else x

/-- Loop step for the running minimum in the Y-range setup. -/
def minStep (a : ℚ) (s : MetricSample) : ℚ :=
  if s.Value < a then s.Value else a

/-- Loop step for the running maximum in the Y-range setup. -/
def maxStep (a : ℚ) (s : MetricSample) : ℚ :=
  if a < s.Value then s.Value else a

/-- The observed minimum over a batch (`minVal` in `Update`: initialized to
the first value, then folded over the whole batch). -/
def batchMin : List MetricSample → ℚ
  | [] => 0
  | s0 :: rest => (s0 :: rest).foldl minStep s0.Value

/-- The observed maximum over a batch (`maxVal` in `Update`). -/
def batchMax : List MetricSample → ℚ
  | [] => 0
  | s0 :: rest => (s0 :: rest).foldl maxStep s0.Value

/-- The initial Y-range computation of `Update`: `[minVal*0.9, maxVal*1.1]`,
with the degenerate case expanded around the common value by `0.1*|minVal|`
or to `[-1, 1]` when that value is zero. -/
def computeRange (samples : List MetricSample) : ℚ × ℚ :=
  match samples with
  | [] => (0, 0)
  | s0 :: rest =>
    let minVal := batchMin (s0 :: rest)
    let maxVal := batchMax (s0 :: rest)
    let minY := minVal * (9 / 10)
    let maxY := maxVal * (11 / 10)
    if minY = maxY then
      if minVal = 0 then (-1, 1)
      else
        let delta := goAbs minVal * (1 / 10)
        (minVal - delta, maxVal + delta)
    else (minY, maxY)

/-- The per-sample body of the processing loop in `Update`: record the last
value, append the point to `dataHistory` unconditionally, and push it to
the chart dataset only when the series is checked (the style calls are
render-only).  The point's timestamp is `m.lastUpdate`. -/
def pushSample (m : Model) (sample : MetricSample) : Model :=
  let point : TimePoint := ⟨m.lastUpdate, sample.Value⟩
  let name := sample.FullName
  let isChecked :=
    if m.seriesList.isEmpty then true
    else
      match m.seriesList.find? (fun s => s.name == name) with
      | some s => s.checked
      | none => false
  let m2 := { m with
    lastValues := fun n => if n = name then some sample.Value else m.lastValues n,
    dataHistory := fun n =>
      if n = name then m.dataHistory n ++ [point] else m.dataHistory n }
  if isChecked then
    { m2 with chart := { m2.chart with datasets := fun n =>
        if n = name then m2.chart.datasets n ++ [point] else m2.chart.datasets n } }
  else m2

/-- The processing loop over the whole batch. -/
def pushSamples (m : Model) (samples : List MetricSample) : Model :=
  samples.foldl pushSample m

/-- The `MetricsMsg` branch of `Update` (`main.go`): error messages only
set `m.err`; otherwise the error is cleared and `lastUpdate` advanced,
then the cross-metric guard drops batches whose first sample has a foreign
base name; surviving batches are reconciled into the registry, trigger the
one-shot Y-range setup, and are appended to history/chart. -/
def updateMetricsMsg (m : Model) (now : Nat) (msg : MetricsMsg) : Model :=
  match msg.err with
  | some e => { m with err := some e }
  | none =>
    let m1 := { m with err := none, lastUpdate := now }
    match msg.samples with
    | [] => m1
    | s0 :: _ =>
      if baseNameOf s0.FullName ≠ m1.metricName then m1
      else
        let m2 := { m1 with seriesList := reconcileSeries m1.seriesList msg.samples }
        let m3 :=
          if m2.yRangeSet then m2
          else
            let r := computeRange msg.samples
            { m2 with
              chart := { m2.chart with yMin := r.1, yMax := r.2 },
              yRangeSet := true }
        pushSamples m3 msg.samples

/-- The `r` key in normal mode ("Reset the chart"): `chart.ClearAllData()`
plus two pure drawing calls; nothing else of the model is touched. -/
def resetKey (m : Model) : Model :=
  { m with chart := { m.chart with datasets := fun _ => [] } }

/-- The metric-switch confirmation (`enter` in select mode with a chosen
metric): the chart is recreated and the session state is cleared. -/
def switchMetric (m : Model) (chosen : String) : Model :=
  { m with
    metricName := chosen,
    chart := newChart,
    err := none,
    lastValues := fun _ => none,
    dataHistory := fun _ => [],
    lastUpdate := 0,
    yRangeSet := false,
    seriesList := [],
    seriesListSelected := 0,
    seriesListScroll := 0,
    selectMode := false }

/-- A fresh concrete session on metric `m`, used by the example theorems. -/
def model0 : Model :=
  { metricName := "m", err := none, lastUpdate := 0, yRangeSet := false,
    seriesList := [], dataHistory := fun _ => [], lastValues := fun _ => none,
    chart := newChart, selectMode := false, seriesSelectMode := false,
    seriesListSelected := 0, seriesListScroll := 0 }

/-- A session whose Y-range is already locked at `[0, 10]`. -/
def modelLocked : Model :=
  { model0 with
    yRangeSet := true,
    chart := { yMin := 0, yMax := 10, datasets := fun _ => [] } }

/-- A session with one retained history point and a locked range. -/
def modelHist : Model :=
  { model0 with
    yRangeSet := true,
    dataHistory := fun n => if n = "a" then [⟨0, 1⟩] else [] }

/-- A session currently displaying a scrape error. -/
def modelErr : Model :=
  { model0 with err := some (.endpointError "boom") }

/-- A registry that has seen series `A` and `B`. -/
def registryAB : List SeriesItem := [⟨"A", true, 0⟩, ⟨"B", true, 1⟩]

/-- A batch observing `A`, `B` and the new series `C`. -/
def batchABC : List MetricSample := [⟨"A", 3⟩, ⟨"B", 4⟩, ⟨"C", 5⟩]

/-! ### Helper lemmas -/

theorem pushSample_fields (m : Model) (s : MetricSample) :
    (pushSample m s).chart.yMin = m.chart.yMin ∧
    (pushSample m s).chart.yMax = m.chart.yMax ∧
    (pushSample m s).yRangeSet = m.yRangeSet ∧
    (pushSample m s).seriesList = m.seriesList ∧
    (pushSample m s).err = m.err ∧
    (pushSample m s).lastUpdate = m.lastUpdate ∧
    (pushSample m s).metricName = m.metricName := by
  unfold pushSample
  refine ⟨?_, ?_, ?_, ?_, ?_, ?_, ?_⟩ <;>
    simp only [apply_ite Model.chart, apply_ite Chart.yMin, apply_ite Chart.yMax,
      apply_ite Model.yRangeSet, apply_ite Model.seriesList, apply_ite Model.err,
      apply_ite Model.lastUpdate, apply_ite Model.metricName, ite_self]

theorem pushSamples_fields (samples : List MetricSample) (m : Model) :
    (pushSamples m samples).chart.yMin = m.chart.yMin ∧
    (pushSamples m samples).chart.yMax = m.chart.yMax ∧
    (pushSamples m samples).yRangeSet = m.yRangeSet ∧
    (pushSamples m samples).seriesList = m.seriesList ∧
    (pushSamples m samples).err = m.err ∧
    (pushSamples m samples).lastUpdate = m.lastUpdate ∧
    (pushSamples m samples).metricName = m.metricName := by
  induction samples generalizing m with
  | nil => simp [pushSamples]
  | cons s ss ih =>
    have h1 := pushSample_fields m s
    have h2 := ih (pushSample m s)
    simp only [pushSamples, List.foldl_cons] at h2 ⊢
    refine ⟨h2.1.trans h1.1, h2.2.1.trans h1.2.1, h2.2.2.1.trans h1.2.2.1,
      h2.2.2.2.1.trans h1.2.2.2.1, h2.2.2.2.2.1.trans h1.2.2.2.2.1,
      h2.2.2.2.2.2.1.trans h1.2.2.2.2.2.1, h2.2.2.2.2.2.2.trans h1.2.2.2.2.2.2⟩

theorem updateMetricsMsg_guard (m : Model) (now : Nat) (s0 : MetricSample)
    (rest : List MetricSample) (h : baseNameOf s0.FullName ≠ m.metricName) :
    updateMetricsMsg m now ⟨s0 :: rest, none⟩ =
      { m with err := none, lastUpdate := now } := by
  simp [updateMetricsMsg, h]

theorem updateMetricsMsg_accept_range (m : Model) (now : Nat) (s0 : MetricSample)
    (rest : List MetricSample) (hg : baseNameOf s0.FullName = m.metricName)
    (hset : m.yRangeSet = false) :
    (updateMetricsMsg m now ⟨s0 :: rest, none⟩).yRangeSet = true ∧
    (updateMetricsMsg m now ⟨s0 :: rest, none⟩).chart.yMin =
      (computeRange (s0 :: rest)).1 ∧
    (updateMetricsMsg m now ⟨s0 :: rest, none⟩).chart.yMax =
      (computeRange (s0 :: rest)).2 := by
  simp only [updateMetricsMsg, hg, ne_eq, not_true_eq_false, if_false, hset,
    Bool.false_eq_true, ite_false]
  exact ⟨((pushSamples_fields _ _).2.2.1).trans rfl,
    ((pushSamples_fields _ _).1).trans rfl,
    ((pushSamples_fields _ _).2.1).trans rfl⟩

/-! ### Claim theorems -/

/-- C3 counterexample: a session holding one history point for series `a`
with a locked range is reset by the user (`r` key); the history point is
still there and the range lock is still set, so the explicit user reset
clears neither History nor the DisplayRange lock. -/
theorem claim3_counterexample :
    (resetKey modelHist).dataHistory "a" = [⟨0, 1⟩] ∧
    (resetKey modelHist).dataHistory "a" ≠ [] ∧
    (resetKey modelHist).yRangeSet = true := by
  refine ⟨by decide, by decide, rfl⟩

/-- C3 amended: the explicit user reset (`r`) clears only the chart
surface's datasets, leaving History and the range lock untouched; the
metric-switch confirmation does clear History, the registry and the range
lock, after which the next accepted non-empty batch recomputes the
initial Y-range. -/
theorem claim3_reset_and_switch :
    (∀ m : Model,
      (resetKey m).dataHistory = m.dataHistory ∧
      (resetKey m).yRangeSet = m.yRangeSet ∧
      (resetKey m).chart.datasets = fun _ => []) ∧
    (∀ (m : Model) (chosen : String),
      (switchMetric m chosen).dataHistory = (fun _ => []) ∧
      (switchMetric m chosen).yRangeSet = false ∧
      (switchMetric m chosen).seriesList = []) ∧
    (∀ (m : Model) (chosen : String) (now : Nat) (s0 : MetricSample)
      (rest : List MetricSample), baseNameOf s0.FullName = chosen →
      (updateMetricsMsg (switchMetric m chosen) now ⟨s0 :: rest, none⟩).yRangeSet =
        true) := by
  refine ⟨fun m => ⟨rfl, rfl, rfl⟩, fun m chosen => ⟨rfl, rfl, rfl⟩, ?_⟩
  intro m chosen now s0 rest hg
  exact (updateMetricsMsg_accept_range (switchMetric m chosen) now s0 rest hg rfl).1

/-- Witness for C3 (amended): after switching the history-laden session to
metric `m`, the first accepted batch re-establishes the range lock. -/
theorem claim3_witness :
    (updateMetricsMsg (switchMetric modelHist "m") 3
      ⟨[⟨"m\x7b\x7d", 2⟩], none⟩).yRangeSet = true :=
  claim3_reset_and_switch.2.2 modelHist "m" 3 ⟨"m\x7b\x7d", 2⟩ [] (by decide)

/-- C4: once the initial display range has been computed for a metric
session (`yRangeSet = true`), processing any further scrape-result message
leaves the stored `yMin`/`yMax` unchanged — even when the batch holds
values outside the range — and the lock stays set. -/
theorem claim4_range_lock (m : Model) (now : Nat) (msg : MetricsMsg)
    (h : m.yRangeSet = true) :
    (updateMetricsMsg m now msg).chart.yMin = m.chart.yMin ∧
    (updateMetricsMsg m now msg).chart.yMax = m.chart.yMax ∧
    (updateMetricsMsg m now msg).yRangeSet = true := by
  obtain ⟨samples, err⟩ := msg
  cases err with
  | some e => simp [updateMetricsMsg, h]
  | none =>
    cases samples with
    | nil => simp [updateMetricsMsg, h]
    | cons s0 rest =>
      by_cases hg : baseNameOf s0.FullName = m.metricName
      · simp only [updateMetricsMsg, hg, ne_eq, not_true_eq_false, if_false, h,
          if_true, ite_true]
        refine ⟨((pushSamples_fields _ _).1).trans rfl,
          ((pushSamples_fields _ _).2.1).trans rfl,
          ((pushSamples_fields _ _).2.2.1).trans rfl⟩
      · rw [updateMetricsMsg_guard m now s0 rest hg]
        exact ⟨rfl, rfl, h⟩

/-- Witness for C4: a locked `[0, 10]` session is fed a batch with the
out-of-range value `99`; the stored range stays `[0, 10]`. -/
theorem claim4_witness :
    (updateMetricsMsg modelLocked 1 ⟨[⟨"m\x7b\x7d", 99⟩], none⟩).chart.yMin =
      modelLocked.chart.yMin ∧
    (updateMetricsMsg modelLocked 1 ⟨[⟨"m\x7b\x7d", 99⟩], none⟩).chart.yMax =
      modelLocked.chart.yMax ∧
    (updateMetricsMsg modelLocked 1 ⟨[⟨"m\x7b\x7d", 99⟩], none⟩).yRangeSet = true :=
  claim4_range_lock modelLocked 1 ⟨[⟨"m\x7b\x7d", 99⟩], none⟩ rfl

/-- C5: a non-empty scrape batch whose first sample's base name differs
from the session's current metric leaves the series registry and the data
history exactly unchanged. -/
theorem claim5_cross_metric_guard (m : Model) (now : Nat) (s0 : MetricSample)
    (rest : List MetricSample) (h : baseNameOf s0.FullName ≠ m.metricName) :
    (updateMetricsMsg m now ⟨s0 :: rest, none⟩).seriesList = m.seriesList ∧
    (updateMetricsMsg m now ⟨s0 :: rest, none⟩).dataHistory = m.dataHistory := by
  rw [updateMetricsMsg_guard m now s0 rest h]
  exact ⟨rfl, rfl⟩

/-- Witness for C5: a batch for metric `x` arriving while `m` is selected
changes neither registry nor history. -/
theorem claim5_witness :
    (updateMetricsMsg model0 5 ⟨[⟨"x\x7b\x7d", 5⟩], none⟩).seriesList =
      model0.seriesList ∧
    (updateMetricsMsg model0 5 ⟨[⟨"x\x7b\x7d", 5⟩], none⟩).dataHistory =
      model0.dataHistory :=
  claim5_cross_metric_guard model0 5 ⟨"x\x7b\x7d", 5⟩ [] (by decide)

/-- C10: the cross-metric discard is not fully side-effect-free — the
displayed error is cleared and the last-update stamp advanced to the
current time before the batch is dropped, while registry and history stay
unchanged. -/
theorem claim10_discard_side_effects (m : Model) (now : Nat) (s0 : MetricSample)
    (rest : List MetricSample) (h : baseNameOf s0.FullName ≠ m.metricName) :
    (updateMetricsMsg m now ⟨s0 :: rest, none⟩).err = none ∧
    (updateMetricsMsg m now ⟨s0 :: rest, none⟩).lastUpdate = now ∧
    (updateMetricsMsg m now ⟨s0 :: rest, none⟩).seriesList = m.seriesList ∧
    (updateMetricsMsg m now ⟨s0 :: rest, none⟩).dataHistory = m.dataHistory := by
  rw [updateMetricsMsg_guard m now s0 rest h]
  exact ⟨rfl, rfl, rfl, rfl⟩

/-- Witness for C10: a session showing an error receives a stale batch for
metric `x` at time 7; the error is cleared and the stamp becomes 7. -/
theorem claim10_witness :
    (updateMetricsMsg modelErr 7 ⟨[⟨"x\x7b\x7d", 5⟩], none⟩).err = none ∧
    (updateMetricsMsg modelErr 7 ⟨[⟨"x\x7b\x7d", 5⟩], none⟩).lastUpdate = 7 ∧
    (updateMetricsMsg modelErr 7 ⟨[⟨"x\x7b\x7d", 5⟩], none⟩).seriesList =
      modelErr.seriesList ∧
    (updateMetricsMsg modelErr 7 ⟨[⟨"x\x7b\x7d", 5⟩], none⟩).dataHistory =
      modelErr.dataHistory :=
  claim10_discard_side_effects modelErr 7 ⟨"x\x7b\x7d", 5⟩ [] (by decide)

theorem minStep_le (a : ℚ) (s : MetricSample) :
    minStep a s ≤ a ∧ minStep a s ≤ s.Value := by
  unfold minStep
  split
  · rename_i h
    exact ⟨le_of_lt h, le_rfl⟩
  · rename_i h
    exact ⟨le_rfl, le_of_not_lt h⟩

theorem maxStep_ge (a : ℚ) (s : MetricSample) :
    a ≤ maxStep a s ∧ s.Value ≤ maxStep a s := by
  unfold maxStep
  split
  · rename_i h
    exact ⟨le_of_lt h, le_rfl⟩
  · rename_i h
    exact ⟨le_rfl, le_of_not_lt h⟩

theorem foldlMin_le_init (l : List MetricSample) : ∀ a : ℚ, l.foldl minStep a ≤ a := by
  induction l with
  | nil => intro a; simp
  | cons s ss ih =>
    intro a
    rw [List.foldl_cons]
    exact (ih (minStep a s)).trans (minStep_le a s).1

theorem foldlMin_le_mem (l : List MetricSample) :
    ∀ (a : ℚ) (s : MetricSample), s ∈ l → l.foldl minStep a ≤ s.Value := by
  induction l with
  | nil => intro a s h; cases h
  | cons t ts ih =>
    intro a s hs
    rw [List.foldl_cons]
    rcases List.mem_cons.mp hs with h | h
    · subst h
      exact (foldlMin_le_init ts (minStep a s)).trans (minStep_le a s).2
    · exact ih (minStep a t) s h

theorem le_foldlMin (l : List MetricSample) :
    ∀ (a c : ℚ), c ≤ a → (∀ s ∈ l, c ≤ s.Value) → c ≤ l.foldl minStep a := by
  induction l with
  | nil => intro a c h _; simpa using h
  | cons s ss ih =>
    intro a c hca hall
    rw [List.foldl_cons]
    refine ih (minStep a s) c ?_ fun t ht => hall t (List.mem_cons_of_mem s ht)
    unfold minStep
    split
    · exact hall s (List.mem_cons_self s ss)
    · exact hca

theorem init_le_foldlMax (l : List MetricSample) : ∀ a : ℚ, a ≤ l.foldl maxStep a := by
  induction l with
  | nil => intro a; simp
  | cons s ss ih =>
    intro a
    rw [List.foldl_cons]
    exact (maxStep_ge a s).1.trans (ih (maxStep a s))

theorem mem_le_foldlMax (l : List MetricSample) :
    ∀ (a : ℚ) (s : MetricSample), s ∈ l → s.Value ≤ l.foldl maxStep a := by
  induction l with
  | nil => intro a s h; cases h
  | cons t ts ih =>
    intro a s hs
    rw [List.foldl_cons]
    rcases List.mem_cons.mp hs with h | h
    · subst h
      exact (maxStep_ge a s).2.trans (init_le_foldlMax ts (maxStep a s))
    · exact ih (maxStep a t) s h

theorem foldlMax_le (l : List MetricSample) :
    ∀ (a c : ℚ), a ≤ c → (∀ s ∈ l, s.Value ≤ c) → l.foldl maxStep a ≤ c := by
  induction l with
  | nil => intro a c h _; simpa using h
  | cons s ss ih =>
    intro a c hac hall
    rw [List.foldl_cons]
    refine ih (maxStep a s) c ?_ fun t ht => hall t (List.mem_cons_of_mem s ht)
    unfold maxStep
    split
    · exact hall s (List.mem_cons_self s ss)
    · exact hac

theorem computeRange_nonneg (s0 : MetricSample) (rest : List MetricSample)
    (hnn : ∀ s ∈ s0 :: rest, 0 ≤ s.Value) :
    (computeRange (s0 :: rest)).1 < (computeRange (s0 :: rest)).2 ∧
    (∀ s ∈ s0 :: rest, (computeRange (s0 :: rest)).1 ≤ s.Value ∧
      s.Value ≤ (computeRange (s0 :: rest)).2) ∧
    ((∃ s ∈ s0 :: rest, s.Value ≠ 0) →
      computeRange (s0 :: rest) =
        (batchMin (s0 :: rest) * (9 / 10), batchMax (s0 :: rest) * (11 / 10))) ∧
    ((∀ s ∈ s0 :: rest, s.Value = 0) → computeRange (s0 :: rest) = (-1, 1)) := by
  have hs0 : s0 ∈ s0 :: rest := List.mem_cons_self s0 rest
  have hmin_le : ∀ s ∈ s0 :: rest, batchMin (s0 :: rest) ≤ s.Value := by
    intro s hs
    exact foldlMin_le_mem (s0 :: rest) s0.Value s hs
  have hle_max : ∀ s ∈ s0 :: rest, s.Value ≤ batchMax (s0 :: rest) := by
    intro s hs
    exact mem_le_foldlMax (s0 :: rest) s0.Value s hs
  have hmin_nonneg : 0 ≤ batchMin (s0 :: rest) :=
    le_foldlMin (s0 :: rest) s0.Value 0 (hnn s0 hs0) hnn
  have hminmax : batchMin (s0 :: rest) ≤ batchMax (s0 :: rest) :=
    (hmin_le s0 hs0).trans (hle_max s0 hs0)
  have hmax_nonneg : 0 ≤ batchMax (s0 :: rest) := hmin_nonneg.trans hminmax
  by_cases hz : ∀ s ∈ s0 :: rest, s.Value = 0
  · have hmin0 : batchMin (s0 :: rest) = 0 :=
      le_antisymm (by simpa [hz s0 hs0] using hmin_le s0 hs0) hmin_nonneg
    have hmax0 : batchMax (s0 :: rest) = 0 :=
      le_antisymm
        (foldlMax_le (s0 :: rest) s0.Value 0 (le_of_eq (hz s0 hs0))
          fun s hs => le_of_eq (hz s hs))
        hmax_nonneg
    have hcr : computeRange (s0 :: rest) = (-1, 1) := by
      simp only [computeRange, hmin0, hmax0]
      norm_num
    refine ⟨?_, ?_, ?_, fun _ => hcr⟩
    · rw [hcr]; norm_num
    · intro s hs
      rw [hcr, hz s hs]
      norm_num
    · intro ⟨s, hs, hne⟩
      exact absurd (hz s hs) hne
  · push_neg at hz
    obtain ⟨t, ht, htne⟩ := hz
    have htpos : 0 < t.Value := lt_of_le_of_ne (hnn t ht) (Ne.symm htne)
    have hmaxpos : 0 < batchMax (s0 :: rest) := htpos.trans_le (hle_max t ht)
    have hne : batchMin (s0 :: rest) * (9 / 10) ≠ batchMax (s0 :: rest) * (11 / 10) := by
      intro heq
      nlinarith [hminmax, hmaxpos]
    have hcr : computeRange (s0 :: rest) =
        (batchMin (s0 :: rest) * (9 / 10), batchMax (s0 :: rest) * (11 / 10)) := by
      simp only [computeRange]
      rw [if_neg hne]
    refine ⟨?_, ?_, fun _ => hcr, ?_⟩
    · rw [hcr]
      have : batchMin (s0 :: rest) * (9 / 10) ≤ batchMax (s0 :: rest) * (9 / 10) := by
        nlinarith [hminmax]
      nlinarith [hmaxpos]
    · intro s hs
      rw [hcr]
      constructor
      · have h1 : batchMin (s0 :: rest) * (9 / 10) ≤ batchMin (s0 :: rest) := by
          nlinarith [hmin_nonneg]
        exact h1.trans (hmin_le s hs)
      · have h2 : batchMax (s0 :: rest) ≤ batchMax (s0 :: rest) * (11 / 10) := by
          nlinarith [hmax_nonneg]
        exact (hle_max s hs).trans h2
    · intro hall
      exact absurd (hall t ht) htne

/-- C2 counterexample: a first batch holding the single sample value `-10`
produces the stored range `yMin = -9`, `yMax = -11`: the multiplicative
padding inverts for negative values, `yMin < yMax` fails, and the observed
value `-10` is outside the stored range. -/
theorem claim2_counterexample :
    (updateMetricsMsg model0 1 ⟨[⟨"m\x7b\x7d", -10⟩], none⟩).chart.yMin = -9 ∧
    (updateMetricsMsg model0 1 ⟨[⟨"m\x7b\x7d", -10⟩], none⟩).chart.yMax = -11 ∧
    ¬ ((updateMetricsMsg model0 1 ⟨[⟨"m\x7b\x7d", -10⟩], none⟩).chart.yMin <
        (updateMetricsMsg model0 1 ⟨[⟨"m\x7b\x7d", -10⟩], none⟩).chart.yMax) ∧
    ¬ ((updateMetricsMsg model0 1 ⟨[⟨"m\x7b\x7d", -10⟩], none⟩).chart.yMin ≤ -10 ∧
        (-10 : ℚ) ≤ (updateMetricsMsg model0 1 ⟨[⟨"m\x7b\x7d", -10⟩], none⟩).chart.yMax) := by
  with_unfolding_all decide

/-- C2 amended: the first accepted non-empty batch locks the range and
stores exactly `computeRange` of the batch; whenever all batch values are
non-negative that range is `[0.9*min, 1.1*max]` — or `[-1, 1]` for an
all-zero batch — and it satisfies `yMin < yMax` and contains every
observed value.  (For batches with negative values the multiplicative
padding inverts and these guarantees fail, see the counterexample.) -/
theorem claim2_initial_range :
    (∀ (m : Model) (now : Nat) (s0 : MetricSample) (rest : List MetricSample),
      m.yRangeSet = false → baseNameOf s0.FullName = m.metricName →
      (updateMetricsMsg m now ⟨s0 :: rest, none⟩).yRangeSet = true ∧
      (updateMetricsMsg m now ⟨s0 :: rest, none⟩).chart.yMin =
        (computeRange (s0 :: rest)).1 ∧
      (updateMetricsMsg m now ⟨s0 :: rest, none⟩).chart.yMax =
        (computeRange (s0 :: rest)).2) ∧
    (∀ (s0 : MetricSample) (rest : List MetricSample),
      (∀ s ∈ s0 :: rest, 0 ≤ s.Value) →
      (computeRange (s0 :: rest)).1 < (computeRange (s0 :: rest)).2 ∧
      (∀ s ∈ s0 :: rest, (computeRange (s0 :: rest)).1 ≤ s.Value ∧
        s.Value ≤ (computeRange (s0 :: rest)).2) ∧
      ((∃ s ∈ s0 :: rest, s.Value ≠ 0) →
        computeRange (s0 :: rest) =
          (batchMin (s0 :: rest) * (9 / 10), batchMax (s0 :: rest) * (11 / 10))) ∧
      ((∀ s ∈ s0 :: rest, s.Value = 0) → computeRange (s0 :: rest) = (-1, 1))) :=
  ⟨fun m now s0 rest hset hg => updateMetricsMsg_accept_range m now s0 rest hg hset,
   fun s0 rest hnn => computeRange_nonneg s0 rest hnn⟩

/-- Witness for C2 (amended): a first batch with the single value `10`
locks the range at `computeRange`, and that range is proper. -/
theorem claim2_witness :
    (updateMetricsMsg model0 1 ⟨[⟨"m\x7b\x7d", 10⟩], none⟩).yRangeSet = true ∧
    (updateMetricsMsg model0 1 ⟨[⟨"m\x7b\x7d", 10⟩], none⟩).chart.yMin =
      (computeRange [⟨"m\x7b\x7d", 10⟩]).1 ∧
    (computeRange [(⟨"m\x7b\x7d", 10⟩ : MetricSample)]).1 <
      (computeRange [(⟨"m\x7b\x7d", 10⟩ : MetricSample)]).2 :=
  ⟨(claim2_initial_range.1 model0 1 ⟨"m\x7b\x7d", 10⟩ [] rfl (by decide)).1,
   (claim2_initial_range.1 model0 1 ⟨"m\x7b\x7d", 10⟩ [] rfl (by decide)).2.1,
   (claim2_initial_range.2 ⟨"m\x7b\x7d", 10⟩ [] (by decide)).1⟩

theorem reconcile_extends (samples : List MetricSample) :
    ∀ acc : List SeriesItem,
      ∃ new, samples.foldl reconcileStep acc = acc ++ new ∧
        ∀ r ∈ new, r.checked = true ∧ ∀ r' ∈ acc, r'.name ≠ r.name := by
  induction samples with
  | nil =>
    intro acc
    exact ⟨[], by simp, by simp⟩
  | cons s ss ih =>
    intro acc
    rw [List.foldl_cons]
    by_cases h : acc.any (fun t => t.name == s.FullName)
    · have hstep : reconcileStep acc s = acc := by
        simp [reconcileStep, h]
      rw [hstep]
      exact ih acc
    · have hstep : reconcileStep acc s = acc ++ [⟨s.FullName, true, acc.length⟩] := by
        simp only [reconcileStep]
        rw [if_neg h]
      rw [hstep]
      obtain ⟨new, hnew, hprop⟩ := ih (acc ++ [⟨s.FullName, true, acc.length⟩])
      refine ⟨⟨s.FullName, true, acc.length⟩ :: new, by rw [hnew]; simp, ?_⟩
      intro r hr
      rcases List.mem_cons.mp hr with h1 | h1
      · subst h1
        refine ⟨rfl, ?_⟩
        intro r' hr' hname
        apply h
        rw [List.any_eq_true]
        exact ⟨r', hr', by simp [hname]⟩
      · obtain ⟨hc, hn⟩ := hprop r h1
        exact ⟨hc, fun r' hr' => hn r' (List.mem_append_left _ hr')⟩

theorem reconcile_colorIdx (samples : List MetricSample) :
    ∀ acc : List SeriesItem,
      acc.map (fun r => r.colorIdx) = List.range acc.length →
      (samples.foldl reconcileStep acc).map (fun r => r.colorIdx) =
        List.range (samples.foldl reconcileStep acc).length := by
  induction samples with
  | nil => intro acc h; simpa using h
  | cons s ss ih =>
    intro acc h
    rw [List.foldl_cons]
    apply ih
    unfold reconcileStep
    split
    · exact h
    · rw [List.map_append, h, List.length_append]
      simp [List.range_succ]

theorem reconcile_mem (samples : List MetricSample) :
    ∀ (acc : List SeriesItem) (s : MetricSample), s ∈ samples →
      ∃ r ∈ samples.foldl reconcileStep acc, r.name = s.FullName := by
  induction samples with
  | nil => intro _ s h; cases h
  | cons t ts ih =>
    intro acc s hs
    rw [List.foldl_cons]
    rcases List.mem_cons.mp hs with h | h
    · subst h
      have hstep : ∃ r ∈ reconcileStep acc s, r.name = s.FullName := by
        unfold reconcileStep
        split
        · rename_i hany
          obtain ⟨r, hr, hbeq⟩ := List.any_eq_true.mp hany
          exact ⟨r, hr, by simpa using hbeq⟩
        · exact ⟨⟨s.FullName, true, acc.length⟩, by simp, rfl⟩
      obtain ⟨r, hr, hname⟩ := hstep
      obtain ⟨new, hnew, _⟩ := reconcile_extends ts (reconcileStep acc s)
      refine ⟨r, ?_, hname⟩
      rw [hnew]
      exact List.mem_append_left _ hr
    · exact ih (reconcileStep acc t) s h

/-- C6: reconciling a batch appends one `checked=true` record per unknown
identity (whose name did not occur in the registry), reaches every batch
identity, keeps the existing records as an unchanged first segment (so
identities keep their color index and visibility across scrapes), and —
whenever the registry's color indices equal its position sequence, as they
do for every registry grown from empty — the grown registry's color
indices are again exactly `0, 1, 2, ...` in first-seen order (dense and
unique); the `Update` handler feeds accepted batches into exactly this
reconciliation. -/
theorem claim6_registry_reconcile (l : List SeriesItem) (samples : List MetricSample) :
    (∃ new, reconcileSeries l samples = l ++ new ∧
       ∀ r ∈ new, r.checked = true ∧ ∀ r' ∈ l, r'.name ≠ r.name) ∧
    (∀ s ∈ samples, ∃ r ∈ reconcileSeries l samples, r.name = s.FullName) ∧
    (l.map (fun r => r.colorIdx) = List.range l.length →
       (reconcileSeries l samples).map (fun r => r.colorIdx) =
         List.range (reconcileSeries l samples).length) ∧
    (∀ (m : Model) (now : Nat) (s0 : MetricSample) (rest : List MetricSample),
       baseNameOf s0.FullName = m.metricName →
       (updateMetricsMsg m now ⟨s0 :: rest, none⟩).seriesList =
         reconcileSeries m.seriesList (s0 :: rest)) := by
  refine ⟨reconcile_extends samples l, fun s hs => reconcile_mem samples l s hs,
    fun h => reconcile_colorIdx samples l h, ?_⟩
  intro m now s0 rest hg
  simp only [updateMetricsMsg, hg, ne_eq, not_true_eq_false, if_false]
  split
  · exact ((pushSamples_fields _ _).2.2.2.1).trans rfl
  · exact ((pushSamples_fields _ _).2.2.2.1).trans rfl

/-- Witness for C6: the registry `{A, B}` reconciled with the batch
`{A, B, C}` appends only new checked records with fresh names, and the
color indices of the grown registry are exactly `0, 1, 2`. -/
theorem claim6_witness :
    (∃ new, reconcileSeries registryAB batchABC = registryAB ++ new ∧
       ∀ r ∈ new, r.checked = true ∧ ∀ r' ∈ registryAB, r'.name ≠ r.name) ∧
    (reconcileSeries registryAB batchABC).map (fun r => r.colorIdx) =
      List.range (reconcileSeries registryAB batchABC).length :=
  ⟨(claim6_registry_reconcile registryAB batchABC).1,
   (claim6_registry_reconcile registryAB batchABC).2.2.1 (by decide)⟩

/-- C1: for every input line the value is resolved by first parsing the
last whitespace-delimited token; if that fails and at least three tokens
exist, the second-to-last token is tried; if both attempts fail, or the
last-token attempt fails with fewer than three tokens, the line is
rejected (`none` models `ok = false`), as is any line with fewer than two
tokens; in particular `name 7.89 not_a_number` yields the value `7.89`. -/
theorem claim1_value_resolution :
    (∀ (line : String) (parts : List String), parts = fields line →
      2 ≤ parts.length →
      (∀ v, parseFloat? (lastTokenD parts) = some v →
        parseMetricLine line = some (baseNameOf (parts.headD ""), v)) ∧
      (parseFloat? (lastTokenD parts) = none → 3 ≤ parts.length →
        ∀ v, parseFloat? (secondLastTokenD parts) = some v →
          parseMetricLine line = some (baseNameOf (parts.headD ""), v)) ∧
      (parseFloat? (lastTokenD parts) = none →
        parseFloat? (secondLastTokenD parts) = none →
        parseMetricLine line = none) ∧
      (parseFloat? (lastTokenD parts) = none → parts.length < 3 →
        parseMetricLine line = none)) ∧
    (∀ line : String, (fields line).length < 2 → parseMetricLine line = none) ∧
    parseMetricLine "name 7.89 not_a_number" = some ("name", mkRat 789 100) := by
  refine ⟨?_, ?_, by with_unfolding_all decide⟩
  · intro line parts hp hlen
    subst hp
    have hnot : ¬ (fields line).length < 2 := by omega
    refine ⟨?_, ?_, ?_, ?_⟩
    · intro v hv
      simp [parseMetricLine, hnot, valueWithFallback, hv]
    · intro h0 h3 v hv
      simp [parseMetricLine, hnot, valueWithFallback, h0, h3, hv]
    · intro h0 h1
      simp [parseMetricLine, hnot, valueWithFallback, h0, h1]
    · intro h0 hlt
      have h3 : ¬ 3 ≤ (fields line).length := by omega
      simp [parseMetricLine, hnot, valueWithFallback, h0, h3]
  · intro line h
    simp [parseMetricLine, h]

/-- Witness for C1: on `name 7.89 not_a_number` the last token fails to
parse, three tokens exist, and the second-to-last token yields `7.89`. -/
theorem claim1_witness :
    parseMetricLine "name 7.89 not_a_number" =
      some (baseNameOf ((fields "name 7.89 not_a_number").headD ""), mkRat 789 100) :=
  (claim1_value_resolution.1 "name 7.89 not_a_number"
      (fields "name 7.89 not_a_number") rfl (by decide)).2.1
    (by decide) (by decide) (mkRat 789 100) (by with_unfolding_all decide)

/-- The stricter `metrics.go` parser variant (second field, no fallback)
agrees with the main parser on the timestamp-fallback example. -/
theorem parser_variants_agree_on_example :
    parseMetricLineStrict "name 7.89 not_a_number" =
      parseMetricLine "name 7.89 not_a_number" := by
  with_unfolding_all decide

/-- C7 counterexample: `"  # 5"` has `#` as its first non-space character,
yet the skip stage does not reject it — the literal-prefix check misses
comments preceded by whitespace and the line parses as a sample. -/
theorem claim7_counterexample :
    ("  # 5".toList.dropWhile Char.isWhitespace).headD ' ' = '#' ∧
    startsWithHash "  # 5" = false ∧
    processLine "  # 5" = some ("#", 5) := by
  refine ⟨rfl, rfl, ?_⟩
  with_unfolding_all decide

/-- C7 amended: every line that is empty after trimming whitespace is
rejected by the per-line stage, and every line whose first character is
the comment marker `#` is rejected; a comment marker preceded by
whitespace is not skipped. -/
theorem claim7_skip_blank_and_hash (line : String) :
    (isBlank line = true → processLine line = none) ∧
    (startsWithHash line = true → processLine line = none) := by
  constructor
  · intro h
    simp [processLine, skipLine, h]
  · intro h
    simp [processLine, skipLine, h]

/-- Witness for C7 (amended): a comment line and a blank line are both
rejected. -/
theorem claim7_witness :
    processLine "# 5" = none ∧ processLine "   " = none :=
  ⟨(claim7_skip_blank_and_hash "# 5").2 (by decide),
   (claim7_skip_blank_and_hash "   ").1 (by decide)⟩

theorem fetch_ok_body (name : String) (status : Nat) (body : List String) :
    fetchAllMetricSeries name (.ok status body) =
      if status ≠ 200 then
        .error (.endpointError ("unexpected status code: " ++ Nat.repr status))
      else if (body.filterMap (processSeriesLine name)).isEmpty then
        .error (.metricNotFound name)
      else .ok (body.filterMap (processSeriesLine name)) := rfl

/-- C8: the per-metric fetch fails with an endpoint error exactly on
transport failure or non-200 status, fails with a metric-not-found error
naming the metric exactly when the body yields zero accepted matching
samples, returns the accepted samples otherwise, and every successful
result is a non-empty list. -/
theorem claim8_fetch_errors (name : String) :
    (fetchAllMetricSeries name .transportError =
      .error (.endpointError "failed to fetch metrics")) ∧
    (∀ (status : Nat) (body : List String), status ≠ 200 →
      fetchAllMetricSeries name (.ok status body) =
        .error (.endpointError ("unexpected status code: " ++ Nat.repr status))) ∧
    (∀ body : List String, body.filterMap (processSeriesLine name) = [] →
      fetchAllMetricSeries name (.ok 200 body) = .error (.metricNotFound name)) ∧
    (∀ body : List String, body.filterMap (processSeriesLine name) ≠ [] →
      fetchAllMetricSeries name (.ok 200 body) =
        .ok (body.filterMap (processSeriesLine name))) ∧
    (∀ (resp : FetchResponse) (samples : List MetricSample),
      fetchAllMetricSeries name resp = .ok samples → samples ≠ []) := by
  refine ⟨rfl, ?_, ?_, ?_, ?_⟩
  · intro status body h
    simp [fetchAllMetricSeries, h]
  · intro body h
    simp [fetchAllMetricSeries, h]
  · intro body h
    have hemp : (body.filterMap (processSeriesLine name)).isEmpty = false := by
      simpa [List.isEmpty_iff] using h
    simp [fetchAllMetricSeries, hemp]
  · intro resp samples h hnil
    subst hnil
    cases resp with
    | transportError => exact absurd h (by simp [fetchAllMetricSeries])
    | ok status body =>
      rw [fetch_ok_body] at h
      by_cases hs : status ≠ 200
      · rw [if_pos hs] at h
        cases h
      · rw [if_neg hs] at h
        by_cases hemp : (body.filterMap (processSeriesLine name)).isEmpty = true
        · rw [if_pos hemp] at h
          cases h
        · rw [if_neg hemp] at h
          have heq : body.filterMap (processSeriesLine name) = [] := Except.ok.inj h
          rw [heq] at hemp
          exact hemp rfl

/-- Witness for C8: a 500 status yields the endpoint error, an unmatched
metric yields the metric-not-found error, and a matching body yields the
accepted sample. -/
theorem claim8_witness :
    fetchAllMetricSeries "m" (.ok 500 []) =
      .error (.endpointError ("unexpected status code: " ++ Nat.repr 500)) ∧
    fetchAllMetricSeries "missing" (.ok 200 ["other_metric 1"]) =
      .error (.metricNotFound "missing") ∧
    fetchAllMetricSeries "m" (.ok 200 ["m 5"]) = .ok [⟨"m\x7b\x7d", 5⟩] :=
  ⟨(claim8_fetch_errors "m").2.1 500 [] (by decide),
   (claim8_fetch_errors "missing").2.2.1 ["other_metric 1"] (by decide),
   ((claim8_fetch_errors "m").2.2.2.1 ["m 5"] (by decide)).trans
     (congrArg Except.ok (by decide))⟩

theorem takeWhile_append_all {p : Char → Bool} (l1 l2 : List Char)
    (h : ∀ c ∈ l1, p c = true) :
    (l1 ++ l2).takeWhile p = l1 ++ l2.takeWhile p := by
  induction l1 with
  | nil => simp
  | cons c cs ih =>
    simp only [List.cons_append, List.takeWhile_cons]
    rw [h c (List.mem_cons_self c cs)]
    simp [ih fun d hd => h d (List.mem_cons_of_mem c hd)]

theorem string_toList_append (s t : String) : (s ++ t).toList = s.toList ++ t.toList :=
  String.data_append s t

theorem no_brace_chars (s : String) (h : hasBrace s = false) :
    ∀ c ∈ s.toList, (c != '{') = true := by
  intro c hc
  cases hcb : (c == '{') with
  | false => simp [bne, hcb]
  | true =>
    exfalso
    have hb : hasBrace s = true := by
      unfold hasBrace
      exact List.any_eq_true.mpr ⟨c, hc, hcb⟩
    rw [h] at hb
    exact absurd hb (by decide)

theorem string_mk_toList (s : String) : String.mk s.toList = s := rfl

theorem baseNameOf_no_brace (s : String) (h : hasBrace s = false) :
    baseNameOf s = s := by
  unfold baseNameOf
  rw [List.takeWhile_eq_self_iff.mpr (no_brace_chars s h)]
  exact string_mk_toList s

theorem baseNameOf_append_braces (s : String) (h : hasBrace s = false) :
    baseNameOf (s ++ "\x7b\x7d") = s := by
  unfold baseNameOf
  rw [string_toList_append, takeWhile_append_all _ _ (no_brace_chars s h)]
  have h2 : ("\x7b\x7d".toList).takeWhile (fun c => c != '{') = [] := rfl
  rw [h2, List.append_nil]
  exact string_mk_toList s

theorem hasBrace_append_braces (s : String) : hasBrace (s ++ "\x7b\x7d") = true := by
  unfold hasBrace
  rw [string_toList_append, List.any_append]
  simp

theorem processSeriesLine_ok (metricName line : String) (s : MetricSample)
    (h : processSeriesLine metricName line = some s) :
    baseNameOf s.FullName = metricName ∧ hasBrace s.FullName = true := by
  unfold processSeriesLine at h
  by_cases h1 : skipLine line = true
  · simp [h1] at h
  · rw [if_neg h1] at h
    by_cases h2 : (fields line).length < 2
    · rw [if_pos h2] at h
      cases h
    · rw [if_neg h2] at h
      by_cases h3 : baseNameOf ((fields line).headD "") ≠ metricName
      · rw [if_pos h3] at h
        cases h
      · rw [if_neg h3] at h
        push_neg at h3
        cases hv : valueWithFallback (fields line) with
        | none => rw [hv] at h; cases h
        | some v =>
          rw [hv] at h
          have hs := (Option.some.inj h).symm
          by_cases hb : hasBrace ((fields line).headD "") = true
          · rw [if_pos hb] at hs
            rw [hs]
            exact ⟨h3, hb⟩
          · rw [if_neg hb] at hs
            rw [hs]
            have hbf : hasBrace ((fields line).headD "") = false :=
              Bool.eq_false_iff.mpr hb
            refine ⟨?_, hasBrace_append_braces _⟩
            rw [baseNameOf_append_braces _ hbf]
            rw [← baseNameOf_no_brace _ hbf]
            exact h3

/-- C9: every sample in a successful per-metric fetch has a base name
byte-equal to the requested metric and a full name carrying a label block
(raw or synthesized `\x7b\x7d`); hence every returned batch is homogeneous
in base name and checking only the first sample in the cross-metric guard
suffices. -/
theorem claim9_sample_invariants (name : String) (resp : FetchResponse)
    (samples : List MetricSample)
    (h : fetchAllMetricSeries name resp = .ok samples) :
    (∀ s ∈ samples, baseNameOf s.FullName = name ∧ hasBrace s.FullName = true) ∧
    (∀ s ∈ samples, ∀ t ∈ samples,
      baseNameOf s.FullName = baseNameOf t.FullName) := by
  have hmem : ∀ s ∈ samples, baseNameOf s.FullName = name ∧
      hasBrace s.FullName = true := by
    intro s hs
    cases resp with
    | transportError => cases h
    | ok status body =>
      rw [fetch_ok_body] at h
      by_cases h200 : status ≠ 200
      · rw [if_pos h200] at h
        cases h
      · rw [if_neg h200] at h
        by_cases hemp : (body.filterMap (processSeriesLine name)).isEmpty = true
        · rw [if_pos hemp] at h
          cases h
        · rw [if_neg hemp] at h
          have hsamp : body.filterMap (processSeriesLine name) = samples :=
            Except.ok.inj h
          rw [← hsamp] at hs
          obtain ⟨line, _, hsl⟩ := List.mem_filterMap.mp hs
          exact processSeriesLine_ok name line s hsl
  exact ⟨hmem, fun s hs t ht => ((hmem s hs).1).trans ((hmem t ht).1).symm⟩

/-- Witness for C9: the label-less body line `m 5` is returned as the
sample `m\x7b\x7d` whose base name is `m` and which carries a label
block. -/
theorem claim9_witness :
    baseNameOf (MetricSample.mk "m\x7b\x7d" 5).FullName = "m" ∧
    hasBrace (MetricSample.mk "m\x7b\x7d" 5).FullName = true :=
  (claim9_sample_invariants "m" (.ok 200 ["m 5"]) [⟨"m\x7b\x7d", 5⟩] rfl).1
    ⟨"m\x7b\x7d", 5⟩ (by simp)

end Slashmetrics
